import Mathlib

/-!
# Shallow embedding of `mmap-simple` (src/lib.rs, src/errors.rs)

The crate exposes a memory-mapped file (`Mmap`) with `append`, `overwrite`,
`drop_from_tail` and `read` operations, each of its `_with` forms taking a
slice callback. The mapping is `MAP_SHARED`, so the mapped bytes and the
backing file are one byte store; we model that store as a `List Nat` of bytes
together with the tracked `size : u64` field. Machine integers are modelled
as `Nat` (the claims quantify over offsets and lengths "as mathematical
integers"; no operand here can reach `2^64` under the crate's own usage).

Host calls that can fail (`File::set_len`, `File::sync_all`) are modelled by
explicit `Bool` parameters saying whether that call succeeds; each operation
returns the `io::Error`-or-value outcome, the post-state, and the number of
durability flushes (`sync_all`) that completed.
-/

/-- The error taxonomy of `src/errors.rs` (`enum MmapError`), one constructor
per source variant, with the raw code payloads as `Int` (`isize` / `i32`). -/
inductive MmapError where
  | ErrFdNotAvail
  | ErrInvalidFd
  | ErrUnaligned
  | ErrNoMapSupport
  | ErrNoMem
  | ErrZeroLength
  | ErrUnknown (code : Int)
  | ErrUnsupProt
  | ErrUnsupOffset
  | ErrAlreadyExists
  | ErrVirtualAlloc (code : Int)
  | ErrCreateFileMappingW (code : Int)
  | ErrMapViewOfFile (code : Int)
deriving DecidableEq, Repr

/-- The `io::Error` values the operations of `src/lib.rs` can return:
`io::ErrorKind::UnexpectedEof` (the end-of-range condition raised by the
bounds checks in `overwrite_with` and `read_with`), or an opaque host
failure propagated from `File::set_len` / `File::sync_all` with `?`. -/
inductive IoErr where
  | unexpectedEof
  | hostFailure
deriving DecidableEq, Repr

instance {ε α : Type} [DecidableEq ε] [DecidableEq α] :
    DecidableEq (Except ε α) := fun a b =>
  match a, b with
  | .ok x, .ok y =>
    if h : x = y then .isTrue (congrArg Except.ok h)
    else .isFalse (fun hc => h (Except.ok.inj hc))
  | .error x, .error y =>
    if h : x = y then .isTrue (congrArg Except.error h)
    else .isFalse (fun hc => h (Except.error.inj hc))
  | .ok _, .error _ => .isFalse (fun hc => Except.noConfusion hc)
  | .error _, .ok _ => .isFalse (fun hc => Except.noConfusion hc)

/-- `pub struct Mmap`: `content` is the backing file's byte store (which the
`MAP_SHARED` mapping aliases), `size` is the tracked `pub size: u64` field.
The raw `ptr` needs no counterpart: all accesses are offsets from it. -/
structure Mmap where
  content : List Nat
  size : Nat
deriving DecidableEq, Repr

/-- Outcome of one operation: the returned `Result`, the state of the `Mmap`
(byte store and tracked size) after the call, and how many `sync_all`
durability flushes completed during the call. -/
structure OpResult (α : Type) [DecidableEq α] where
  res : Except IoErr α
  state : Mmap
  flushes : Nat
deriving Repr

/-- The length of the `mmap` reservation in `Mmap::new`: `1 << 40`. -/
def reservationSize : Nat := 2 ^ 40

/-- `File::set_len n`: truncates or zero-extends the file to `n` bytes. -/
def setLen (c : List Nat) (n : Nat) : List Nat :=
  c.take n ++ List.replicate (n - c.length) 0

/-- The byte range `[off, off+len)` of the mapped store, as the callbacks and
`read` see it (`std::slice::from_raw_parts_mut(ptr.wrapping_offset(off), len)`). -/
def sliceOf (c : List Nat) (off len : Nat) : List Nat :=
  (c.drop off).take len

/-- Writing the bytes `d` at offset `off` through the mapping. -/
def writeAt (c : List Nat) (off : Nat) (d : List Nat) : List Nat :=
  c.take off ++ d ++ c.drop (off + d.length)

/-- A slice callback mutates a fixed-length `&mut [u8]`; its result in the
model is therefore coerced to exactly `len` bytes. -/
def fitLen (len : Nat) (l : List Nat) : List Nat :=
  (l ++ List.replicate len 0).take len

/-- The byte at index `i` (0 past the end; with the invariant in scope all
indices used are in range). -/
def byteAt (c : List Nat) (i : Nat) : Nat :=
  c.getD i 0

/-- The well-formedness invariant the spec states for `MappedGrowableFile`:
the tracked logical size equals the backing file's allocated length. -/
def Mmap.inv (m : Mmap) : Prop :=
  m.size = m.content.length

instance (m : Mmap) : Decidable m.inv := by
  unfold Mmap.inv
  infer_instance

/-- `Mmap::append_with`: `set_len(size + len)?`, populate the fresh tail
slice through the callback, `size += len`, then `sync_all()?`. A `set_len`
failure returns before any mutation; a `sync_all` failure returns the error
after the bytes were written and the size advanced. -/
def Mmap.append_with (m : Mmap) (len : Nat) (writer : List Nat → List Nat)
    (setLenOk syncOk : Bool) : OpResult Unit :=
  if setLenOk = false then ⟨.error .hostFailure, m, 0⟩
  else
    let c1 := setLen m.content (m.size + len)
    let written := fitLen len (writer (sliceOf c1 m.size len))
    let m2 : Mmap := ⟨writeAt c1 m.size written, m.size + len⟩
    if syncOk = false then ⟨.error .hostFailure, m2, 0⟩
    else ⟨.ok (), m2, 1⟩

/-- `Mmap::append`: `append_with(data.len(), |w| w.copy_from_slice(data))`. -/
def Mmap.append (m : Mmap) (data : List Nat) (setLenOk syncOk : Bool) :
    OpResult Unit :=
  m.append_with data.length (fun _ => data) setLenOk syncOk

/-- `Mmap::overwrite_with`: rejects `offset + len > size` with
`UnexpectedEof` before touching memory; otherwise lets the callback replace
`[offset, offset+len)` in place, then `sync_all()?`. -/
def Mmap.overwrite_with (m : Mmap) (offset len : Nat)
    (writer : List Nat → List Nat) (syncOk : Bool) : OpResult Unit :=
  if offset + len > m.size then ⟨.error .unexpectedEof, m, 0⟩
  else
    let written := fitLen len (writer (sliceOf m.content offset len))
    let m2 : Mmap := ⟨writeAt m.content offset written, m.size⟩
    if syncOk = false then ⟨.error .hostFailure, m2, 0⟩
    else ⟨.ok (), m2, 1⟩

/-- `Mmap::overwrite`: `overwrite_with(offset, data.len(), copy_from_slice)`. -/
def Mmap.overwrite (m : Mmap) (offset : Nat) (data : List Nat)
    (syncOk : Bool) : OpResult Unit :=
  m.overwrite_with offset data.length (fun _ => data) syncOk

/-- `Mmap::drop_from_tail`: `set_len(size - len)?`, `sync_all()?`, then
`size -= len`. A `sync_all` failure leaves the file already truncated with
the tracked size not yet decreased. (The `u64` subtraction underflows in the
source when `len > size`; the embedding is used under the spec's constraint
`len ≤ size`, where `Nat` subtraction agrees with `u64`.) -/
def Mmap.drop_from_tail (m : Mmap) (len : Nat) (setLenOk syncOk : Bool) :
    OpResult Unit :=
  if setLenOk = false then ⟨.error .hostFailure, m, 0⟩
  else
    let m1 : Mmap := ⟨setLen m.content (m.size - len), m.size⟩
    if syncOk = false then ⟨.error .hostFailure, m1, 0⟩
    else ⟨.ok (), ⟨m1.content, m.size - len⟩, 1⟩

/-- `Mmap::read_with`: rejects `offset + len > size` with `UnexpectedEof`;
otherwise exposes the slice `[offset, offset+len)` to the reader. No write,
no `set_len`, no `sync_all` occurs in its body, so the state is returned
unchanged with zero flushes. The value is the slice the reader is shown. -/
def Mmap.read_with (m : Mmap) (offset len : Nat) : OpResult (List Nat) :=
  if offset + len > m.size then ⟨.error .unexpectedEof, m, 0⟩
  else ⟨.ok (sliceOf m.content offset len), m, 0⟩

/-- `Mmap::read`: allocates `vec![0u8; len]` and has `read_with` copy the
slice into it; the returned buffer equals the slice `read_with` exposes. -/
def Mmap.read (m : Mmap) (offset len : Nat) : OpResult (List Nat) :=
  m.read_with offset len

/-! ## Constructor (`Mmap::new`) -/

/-- Linux `errno` values matched in `Mmap::new`. -/
def EACCES : Int := 13

def EBADF : Int := 9

def EINVAL : Int := 22

def ENODEV : Int := 19

def ENOMEM : Int := 12

/-- The translation `Mmap::new` applies to the raw OS error code when
`libc::mmap` returns `MAP_FAILED` (the `match` at src/lib.rs:79-86). -/
def translateErrno (code : Int) : MmapError :=
  if code = EACCES then .ErrFdNotAvail
  else if code = EBADF then .ErrInvalidFd
  else if code = EINVAL then .ErrUnaligned
  else if code = ENODEV then .ErrNoMapSupport
  else if code = ENOMEM then .ErrNoMem
  else .ErrUnknown code

/-- Host outcomes `Mmap::new` depends on: whether `OpenOptions::open`
succeeds, whether `metadata()` succeeds, the opened file's bytes, whether
`libc::mmap` returns `MAP_FAILED`, and in that case the raw error code
(`io::Error::last_os_error().raw_os_error().unwrap_or(-1)`). -/
structure HostOpen where
  openOk : Bool
  metadataOk : Bool
  fileBytes : List Nat
  mmapFailed : Bool
  errno : Int
deriving DecidableEq, Repr

/-- Outcome of `Mmap::new`: a constructed instance, a returned `MmapError`,
or a panic — the source calls `.unwrap()` on the `open` and `metadata`
results, which aborts instead of returning. -/
inductive NewResult where
  | ok (m : Mmap)
  | err (e : MmapError)
  | panicked
deriving DecidableEq, Repr

/-- `true` exactly when the constructor returned an error value. -/
def NewResult.isErr : NewResult → Bool
  | .err _ => true
  | _ => false

/-- `Mmap::new`: open (unwrap), read length (unwrap), `libc::mmap`; on
`MAP_FAILED` translate the raw error code, else construct with the file's
length as the initial tracked size. -/
def Mmap.new (h : HostOpen) : NewResult :=
  if h.openOk = false then .panicked
  else if h.metadataOk = false then .panicked
  else if h.mmapFailed then .err (translateErrno h.errno)
  else .ok ⟨h.fileBytes, h.fileBytes.length⟩

/-! ## Helper lemmas -/

theorem fitLen_length (len : Nat) (l : List Nat) : (fitLen len l).length = len := by
  simp [fitLen]

theorem fitLen_of_length {len : Nat} {l : List Nat} (h : l.length = len) :
    fitLen len l = l := by
  subst h
  exact List.take_left l _

theorem setLen_length (c : List Nat) (n : Nat) : (setLen c n).length = n := by
  simp [setLen]
  omega

theorem setLen_of_le {c : List Nat} {n : Nat} (h : n ≤ c.length) :
    setLen c n = c.take n := by
  have : n - c.length = 0 := by omega
  simp [setLen, this]

theorem setLen_grow {c : List Nat} {n : Nat} (h : c.length ≤ n) :
    setLen c n = c ++ List.replicate (n - c.length) 0 := by
  simp [setLen, List.take_of_length_le h]

theorem writeAt_length {c d : List Nat} {off : Nat} (h : off + d.length ≤ c.length) :
    (writeAt c off d).length = c.length := by
  simp [writeAt]
  omega

theorem sliceOf_length {c : List Nat} {off len : Nat} (h : off + len ≤ c.length) :
    (sliceOf c off len).length = len := by
  simp [sliceOf]
  omega

theorem writeAt_at_length (c d : List Nat) :
    writeAt c c.length d = c ++ d := by
  simp [writeAt, List.take_of_length_le (Nat.le_refl _),
    List.drop_eq_nil_of_le (Nat.le_add_right _ _)]

theorem sliceOf_at_length (c d : List Nat) (len : Nat) :
    sliceOf (c ++ d) c.length len = d.take len := by
  simp [sliceOf, List.drop_left]

theorem writeAt_nil (c : List Nat) (off : Nat) : writeAt c off [] = c := by
  simp [writeAt]

theorem byteAt_take {c : List Nat} {n i : Nat} (h : i < n) :
    byteAt (c.take n) i = byteAt c i := by
  simp [byteAt, List.getD_eq_getElem?_getD, List.getElem?_take, h]

theorem byteAt_append_lt {c d : List Nat} {i : Nat} (h : i < c.length) :
    byteAt (c ++ d) i = byteAt c i := by
  simp [byteAt, List.getD_eq_getElem?_getD, List.getElem?_append, h]

theorem byteAt_writeAt_lt {c d : List Nat} {off i : Nat}
    (hoff : off ≤ c.length) (h : i < off) :
    byteAt (writeAt c off d) i = byteAt c i := by
  have h1 : i < (c.take off).length := by simp; omega
  rw [writeAt, List.append_assoc, byteAt_append_lt h1, byteAt_take h]

theorem byteAt_writeAt_ge {c d : List Nat} {off i : Nat}
    (hoff : off ≤ c.length) (h : off + d.length ≤ i) :
    byteAt (writeAt c off d) i = byteAt c i := by
  have hpre : ((c.take off) ++ d).length = off + d.length := by simp; omega
  have hge : ((c.take off) ++ d).length ≤ i := by omega
  rw [writeAt, byteAt, List.getD_eq_getElem?_getD,
    List.getElem?_append_right hge, hpre]
  rw [List.getElem?_drop, byteAt, List.getD_eq_getElem?_getD]
  have hidx : off + d.length + (i - (off + d.length)) = i := by omega
  rw [hidx]

/-! ## Success-path characterizations -/

theorem append_ok_eq (m : Mmap) (data : List Nat) (hinv : m.inv) :
    m.append data true true =
      ⟨.ok (), ⟨m.content ++ data, m.size + data.length⟩, 1⟩ := by
  have hlen : m.content.length = m.size := hinv.symm
  have hsub : m.size + data.length - m.content.length = data.length := by omega
  have hc1 : setLen m.content (m.size + data.length)
      = m.content ++ List.replicate data.length 0 := by
    rw [setLen_grow (by omega), hsub]
  have hwr : writeAt (m.content ++ List.replicate data.length 0) m.size data
      = m.content ++ data := by
    rw [writeAt, ← hlen, List.take_left]
    have hdrop : (m.content ++ List.replicate data.length 0).drop
        (m.content.length + data.length) = [] :=
      List.drop_eq_nil_of_le (by simp)
    rw [hdrop, List.append_nil]
  have hfit : fitLen data.length data = data := fitLen_of_length rfl
  simp [Mmap.append, Mmap.append_with, hc1, hfit, hwr]

theorem overwrite_ok_eq (m : Mmap) (offset : Nat) (data : List Nat)
    (hb : offset + data.length ≤ m.size) :
    m.overwrite offset data true =
      ⟨.ok (), ⟨writeAt m.content offset data, m.size⟩, 1⟩ := by
  have hfit : fitLen data.length data = data := fitLen_of_length rfl
  have hng : ¬ (offset + data.length > m.size) := by omega
  simp [Mmap.overwrite, Mmap.overwrite_with, hng, hfit]

theorem drop_ok_eq (m : Mmap) (len : Nat) (hinv : m.inv) (hle : len ≤ m.size) :
    m.drop_from_tail len true true =
      ⟨.ok (), ⟨m.content.take (m.size - len), m.size - len⟩, 1⟩ := by
  have hlen : m.size = m.content.length := hinv
  have hset : setLen m.content (m.size - len) = m.content.take (m.size - len) :=
    setLen_of_le (by omega)
  simp [Mmap.drop_from_tail, hset]

theorem append_ok_flags {m : Mmap} {data : List Nat} {slOk sOk : Bool}
    (h : (m.append data slOk sOk).res = .ok ()) : slOk = true ∧ sOk = true := by
  cases slOk <;> cases sOk <;>
    simp [Mmap.append, Mmap.append_with] at h ⊢

theorem overwrite_ok_flags {m : Mmap} {offset : Nat} {data : List Nat} {sOk : Bool}
    (h : (m.overwrite offset data sOk).res = .ok ()) :
    sOk = true ∧ offset + data.length ≤ m.size := by
  by_cases hb : offset + data.length > m.size
  · simp [Mmap.overwrite, Mmap.overwrite_with, hb] at h
  · cases sOk <;> simp [Mmap.overwrite, Mmap.overwrite_with, hb] at h ⊢
    omega

theorem drop_ok_flags {m : Mmap} {len : Nat} {slOk sOk : Bool}
    (h : (m.drop_from_tail len slOk sOk).res = .ok ()) : slOk = true ∧ sOk = true := by
  cases slOk <;> cases sOk <;>
    simp [Mmap.drop_from_tail] at h ⊢

/-! ## Claims -/

/-- C1: for every `Mmap` state and every offset and length with
`offset + length > logical size` (as mathematical integers), `overwrite`
and `overwrite_with` fail with the end-of-range condition
(`UnexpectedEof`) and leave the file content, the logical size (the whole
state) unchanged, performing no flush. -/
theorem claim1_overwrite_oob_fails_unchanged (m : Mmap) (offset len : Nat)
    (w : List Nat → List Nat) (data : List Nat) (syncOk : Bool)
    (hw : offset + len > m.size) (hd : offset + data.length > m.size) :
    (m.overwrite_with offset len w syncOk).res = .error .unexpectedEof ∧
    (m.overwrite_with offset len w syncOk).state = m ∧
    (m.overwrite_with offset len w syncOk).flushes = 0 ∧
    (m.overwrite offset data syncOk).res = .error .unexpectedEof ∧
    (m.overwrite offset data syncOk).state = m ∧
    (m.overwrite offset data syncOk).flushes = 0 := by
  simp [Mmap.overwrite, Mmap.overwrite_with, hw, hd]

theorem claim1_witness :
    (0 + 2 > (Mmap.mk [5] 1).size ∧ 0 + [9, 9].length > (Mmap.mk [5] 1).size) ∧
    ((Mmap.mk [5] 1).overwrite_with 0 2 id true).res = .error .unexpectedEof :=
  ⟨⟨by decide, by decide⟩,
    (claim1_overwrite_oob_fails_unchanged (Mmap.mk [5] 1) 0 2 id [9, 9] true
      (by decide) (by decide)).1⟩

/-- C2: `read` and `read_with` fail with the end-of-range condition exactly
when `offset + length > logical size`; otherwise they return the bytes at
`[offset, offset+length)`. In every case they leave the state unchanged and
perform no durability flush. -/
theorem claim2_read_characterization (m : Mmap) (offset len : Nat) :
    ((m.read_with offset len).res = .error .unexpectedEof ↔
      offset + len > m.size) ∧
    ((m.read offset len).res = .error .unexpectedEof ↔
      offset + len > m.size) ∧
    (offset + len ≤ m.size →
      (m.read_with offset len).res = .ok (sliceOf m.content offset len) ∧
      (m.read offset len).res = .ok (sliceOf m.content offset len)) ∧
    (m.read_with offset len).state = m ∧ (m.read_with offset len).flushes = 0 ∧
    (m.read offset len).state = m ∧ (m.read offset len).flushes = 0 := by
  by_cases h : offset + len > m.size <;>
    simp [Mmap.read, Mmap.read_with, h]

theorem claim2_witness :
    0 + 2 ≤ (Mmap.mk [5, 6] 2).size ∧
    ((Mmap.mk [5, 6] 2).read_with 0 2).res = .ok [5, 6] := by
  refine ⟨by decide, ?_⟩
  have h := (claim2_read_characterization (Mmap.mk [5, 6] 2) 0 2).2.2.1
    (by decide)
  simpa [sliceOf] using h.1

theorem sliceOf_writeAt {c d : List Nat} {off : Nat} (h : off + d.length ≤ c.length) :
    sliceOf (writeAt c off d) off d.length = d := by
  have ht : (c.take off).length = off := by simp; omega
  rw [sliceOf, writeAt, List.append_assoc, List.drop_left' ht, List.take_left' rfl]

/-- C3: with the invariant and `size + len(data)` within the reservation, a
successful `append(data)` advances the logical size to `size + len(data)`,
and reading back `[size, size + len(data))` afterwards returns exactly
`data`. -/
theorem claim3_append_then_read_back (m : Mmap) (data : List Nat)
    (slOk sOk : Bool) (hinv : m.inv)
    (_hres : m.size + data.length ≤ reservationSize)
    (hok : (m.append data slOk sOk).res = .ok ()) :
    (m.append data slOk sOk).state.size = m.size + data.length ∧
    ((m.append data slOk sOk).state.read m.size data.length).res = .ok data := by
  obtain ⟨h1, h2⟩ := append_ok_flags hok
  subst h1
  subst h2
  rw [append_ok_eq m data hinv]
  have hlen : m.size = m.content.length := hinv
  refine ⟨rfl, ?_⟩
  have hng : ¬ (m.size + data.length > m.size + data.length) := by omega
  simp only [Mmap.read, Mmap.read_with, hng, if_false, if_neg hng]
  rw [hlen, sliceOf_at_length, List.take_length]

theorem claim3_witness :
    ((Mmap.mk [1, 2] 2).inv ∧
      (Mmap.mk [1, 2] 2).size + [7, 8].length ≤ reservationSize ∧
      ((Mmap.mk [1, 2] 2).append [7, 8] true true).res = .ok ()) ∧
    ((Mmap.mk [1, 2] 2).append [7, 8] true true).state.size = 2 + [7, 8].length :=
  ⟨⟨by decide, by decide, by decide⟩,
    (claim3_append_then_read_back (Mmap.mk [1, 2] 2) [7, 8] true true
      (by decide) (by decide) (by decide)).1⟩

/-- C5: with the invariant, `length ≤ size`, and a successful
`drop_from_tail(length)`, the logical size and the file's allocated length
both decrease by exactly `length`, and every byte at an offset below
`size - length` is unchanged. -/
theorem claim5_drop_from_tail_shrinks (m : Mmap) (len : Nat) (slOk sOk : Bool)
    (hinv : m.inv) (hle : len ≤ m.size)
    (hok : (m.drop_from_tail len slOk sOk).res = .ok ()) :
    (m.drop_from_tail len slOk sOk).state.size = m.size - len ∧
    (m.drop_from_tail len slOk sOk).state.content.length = m.content.length - len ∧
    (∀ i, i < m.size - len →
      byteAt (m.drop_from_tail len slOk sOk).state.content i = byteAt m.content i) := by
  obtain ⟨h1, h2⟩ := drop_ok_flags hok
  subst h1
  subst h2
  rw [drop_ok_eq m len hinv hle]
  have hlen : m.size = m.content.length := hinv
  refine ⟨rfl, ?_, ?_⟩
  · simp
    omega
  · intro i hi
    exact byteAt_take hi

theorem claim5_witness :
    ((Mmap.mk [1, 2, 3] 3).inv ∧ 1 ≤ (Mmap.mk [1, 2, 3] 3).size ∧
      ((Mmap.mk [1, 2, 3] 3).drop_from_tail 1 true true).res = .ok ()) ∧
    ((Mmap.mk [1, 2, 3] 3).drop_from_tail 1 true true).state.size = 3 - 1 :=
  ⟨⟨by decide, by decide, by decide⟩,
    (claim5_drop_from_tail_shrinks (Mmap.mk [1, 2, 3] 3) 1 true true
      (by decide) (by decide) (by decide)).1⟩

/-- C6: with the invariant and `offset + len(data) ≤ size`, a successful
`overwrite(offset, data)` keeps the logical size unchanged, a subsequent
`read(offset, len(data))` returns exactly `data`, and every byte outside
`[offset, offset + len(data))` is unchanged. -/
theorem claim6_overwrite_then_read_back (m : Mmap) (offset : Nat)
    (data : List Nat) (sOk : Bool) (hinv : m.inv)
    (hb : offset + data.length ≤ m.size)
    (hok : (m.overwrite offset data sOk).res = .ok ()) :
    (m.overwrite offset data sOk).state.size = m.size ∧
    ((m.overwrite offset data sOk).state.read offset data.length).res = .ok data ∧
    (∀ i, i < offset ∨ offset + data.length ≤ i →
      byteAt (m.overwrite offset data sOk).state.content i = byteAt m.content i) := by
  obtain ⟨h1, _⟩ := overwrite_ok_flags hok
  subst h1
  rw [overwrite_ok_eq m offset data hb]
  have hlen : m.size = m.content.length := hinv
  refine ⟨rfl, ?_, ?_⟩
  · have hng : ¬ (offset + data.length > m.size) := by omega
    simp only [Mmap.read, Mmap.read_with, if_neg hng]
    rw [sliceOf_writeAt (by omega)]
  · intro i hi
    rcases hi with hi | hi
    · exact byteAt_writeAt_lt (by omega) hi
    · exact byteAt_writeAt_ge (by omega) hi

theorem claim6_witness :
    ((Mmap.mk [1, 2, 3] 3).inv ∧ 1 + [9].length ≤ (Mmap.mk [1, 2, 3] 3).size ∧
      ((Mmap.mk [1, 2, 3] 3).overwrite 1 [9] true).res = .ok ()) ∧
    (((Mmap.mk [1, 2, 3] 3).overwrite 1 [9] true).state.read 1 [9].length).res
      = .ok [9] :=
  ⟨⟨by decide, by decide, by decide⟩,
    (claim6_overwrite_then_read_back (Mmap.mk [1, 2, 3] 3) 1 [9] true
      (by decide) (by decide) (by decide)).2.1⟩

theorem append_with_ok_flags {m : Mmap} {len : Nat} {w : List Nat → List Nat}
    {slOk sOk : Bool} (h : (m.append_with len w slOk sOk).res = .ok ()) :
    slOk = true ∧ sOk = true := by
  cases slOk <;> cases sOk <;> simp [Mmap.append_with] at h ⊢

theorem overwrite_with_ok_flags {m : Mmap} {offset len : Nat}
    {w : List Nat → List Nat} {sOk : Bool}
    (h : (m.overwrite_with offset len w sOk).res = .ok ()) :
    sOk = true ∧ offset + len ≤ m.size := by
  by_cases hb : offset + len > m.size
  · simp [Mmap.overwrite_with, hb] at h
  · cases sOk <;> simp [Mmap.overwrite_with, hb] at h ⊢
    omega

/-- C4 counterexample: `drop_from_tail(1)` on a two-byte file whose
`sync_all` fails returns an error after the file was truncated but before
the tracked size was decreased, so the tracked logical size (2) differs
from the backing file's allocated length (1) after the call. -/
theorem claim4_counterexample :
    ((Mmap.mk [0, 0] 2).drop_from_tail 1 true false).res = .error .hostFailure ∧
    ((Mmap.mk [0, 0] 2).drop_from_tail 1 true false).state.size ≠
      ((Mmap.mk [0, 0] 2).drop_from_tail 1 true false).state.content.length := by
  decide

/-- C4 (amended): after every mutating operation that returns success, the
tracked logical size equals the backing file's allocated length, provided
they were equal before the call; an operation that returns an error may
leave them diverged (`drop_from_tail` with a failing flush does). -/
theorem claim4_amended_size_matches_file (m : Mmap) (offset len : Nat)
    (w : List Nat → List Nat) (data : List Nat) (slOk sOk : Bool)
    (hinv : m.inv) :
    ((m.append_with len w slOk sOk).res = .ok () →
      (m.append_with len w slOk sOk).state.inv) ∧
    ((m.append data slOk sOk).res = .ok () →
      (m.append data slOk sOk).state.inv) ∧
    ((m.overwrite_with offset len w sOk).res = .ok () →
      (m.overwrite_with offset len w sOk).state.inv) ∧
    ((m.overwrite offset data sOk).res = .ok () →
      (m.overwrite offset data sOk).state.inv) ∧
    ((m.drop_from_tail len slOk sOk).res = .ok () →
      (m.drop_from_tail len slOk sOk).state.inv) := by
  have hlen : m.size = m.content.length := hinv
  have happ : ∀ (l : Nat) (wr : List Nat → List Nat),
      (m.append_with l wr true true).state.inv := by
    intro l wr
    show m.size + l =
      (writeAt (setLen m.content (m.size + l)) m.size
        (fitLen l (wr (sliceOf (setLen m.content (m.size + l)) m.size l)))).length
    rw [writeAt_length (by simp [setLen_length, fitLen_length]), setLen_length]
  have hovw : ∀ (l off : Nat) (wr : List Nat → List Nat), off + l ≤ m.size →
      (m.overwrite_with off l wr true).state.inv := by
    intro l off wr hb
    have hng : ¬ (off + l > m.size) := by omega
    simp only [Mmap.overwrite_with, if_neg hng]
    show m.size =
      (writeAt m.content off (fitLen l (wr (sliceOf m.content off l)))).length
    rw [writeAt_length (by rw [fitLen_length]; omega)]
    exact hlen
  refine ⟨?_, ?_, ?_, ?_, ?_⟩
  · intro h
    obtain ⟨h1, h2⟩ := append_with_ok_flags h
    subst h1
    subst h2
    exact happ len w
  · intro h
    obtain ⟨h1, h2⟩ := append_with_ok_flags h
    subst h1
    subst h2
    exact happ data.length (fun _ => data)
  · intro h
    obtain ⟨h1, h2⟩ := overwrite_with_ok_flags h
    subst h1
    exact hovw len offset w h2
  · intro h
    obtain ⟨h1, h2⟩ := overwrite_with_ok_flags h
    subst h1
    exact hovw data.length offset (fun _ => data) h2
  · intro h
    obtain ⟨h1, h2⟩ := drop_ok_flags h
    subst h1
    subst h2
    show m.size - len = (setLen m.content (m.size - len)).length
    rw [setLen_length]

theorem claim4_witness :
    ((Mmap.mk [1, 2] 2).inv ∧
      ((Mmap.mk [1, 2] 2).overwrite 0 [9] true).res = .ok ()) ∧
    ((Mmap.mk [1, 2] 2).overwrite 0 [9] true).state.inv :=
  ⟨⟨by decide, by decide⟩,
    (claim4_amended_size_matches_file (Mmap.mk [1, 2] 2) 0 0 id [9] true true
      (by decide)).2.2.2.1 (by decide)⟩

/-- C7 counterexample: a valid `overwrite(0, [9])` on the one-byte file `[7]`
whose `sync_all` fails returns an error, yet the byte has already been
overwritten: the error comes with a partial (in fact complete) mutation. -/
theorem claim7_counterexample :
    ((Mmap.mk [7] 1).overwrite 0 [9] false).res = .error .hostFailure ∧
    ((Mmap.mk [7] 1).overwrite 0 [9] false).state ≠ Mmap.mk [7] 1 := by
  decide

/-- C7 (amended): an error from the bounds validation of `overwrite` or
`read`, or from the file-resize step of `append` or `drop_from_tail`, leaves
the logical size, the allocated length and the content exactly as before the
call (append fails closed when the resize fails); an error from the
durability flush that follows a write, however, arrives with the mutation
already applied. -/
theorem claim7_amended_fail_closed (m : Mmap) (offset len : Nat)
    (w : List Nat → List Nat) (data : List Nat) (sOk : Bool)
    (hoob : offset + len > m.size) :
    ((m.overwrite_with offset len w sOk).res = .error .unexpectedEof ∧
      (m.overwrite_with offset len w sOk).state = m) ∧
    ((m.read_with offset len).res = .error .unexpectedEof ∧
      (m.read_with offset len).state = m) ∧
    ((m.append_with len w false sOk).res = .error .hostFailure ∧
      (m.append_with len w false sOk).state = m) ∧
    ((m.append data false sOk).res = .error .hostFailure ∧
      (m.append data false sOk).state = m) ∧
    ((m.drop_from_tail len false sOk).res = .error .hostFailure ∧
      (m.drop_from_tail len false sOk).state = m) := by
  simp [Mmap.overwrite_with, Mmap.read_with, Mmap.append, Mmap.append_with,
    Mmap.drop_from_tail, hoob]

theorem claim7_witness :
    1 + 1 > (Mmap.mk [3] 1).size ∧
    ((Mmap.mk [3] 1).append_with 1 id false true).res = .error .hostFailure ∧
    ((Mmap.mk [3] 1).append_with 1 id false true).state = Mmap.mk [3] 1 :=
  ⟨by decide,
    (claim7_amended_fail_closed (Mmap.mk [3] 1) 1 1 id [4] true
      (by decide)).2.2.1⟩

/-- C8: when the mapping fails, `Mmap::new` translates the raw error code:
`EACCES ↦ ErrFdNotAvail` (spec: FileDescriptorUnavailable), `EBADF ↦
ErrInvalidFd` (InvalidFileDescriptor), `EINVAL ↦ ErrUnaligned`
(UnalignedRequest), `ENODEV ↦ ErrNoMapSupport` (MappingUnsupported),
`ENOMEM ↦ ErrNoMem` (InsufficientResources), anything else to
`ErrUnknown code` (Unrecognized, carrying the raw code). No other operation
produces a taxonomy error: every operation error is an `io::Error` — the
bounds checks give `UnexpectedEof` (the only error `read_with` can return)
and `set_len`/`sync_all` give opaque host failures. -/
theorem claim8_errno_translation :
    translateErrno EACCES = .ErrFdNotAvail ∧
    translateErrno EBADF = .ErrInvalidFd ∧
    translateErrno EINVAL = .ErrUnaligned ∧
    translateErrno ENODEV = .ErrNoMapSupport ∧
    translateErrno ENOMEM = .ErrNoMem ∧
    (∀ code : Int, code ≠ EACCES → code ≠ EBADF → code ≠ EINVAL →
      code ≠ ENODEV → code ≠ ENOMEM →
      translateErrno code = .ErrUnknown code) ∧
    (∀ (m : Mmap) (offset len : Nat) (e : IoErr),
      (m.read_with offset len).res = .error e → e = .unexpectedEof) ∧
    (∀ (m : Mmap) (offset len : Nat) (w : List Nat → List Nat)
      (slOk sOk : Bool) (e : IoErr),
      ((m.append_with len w slOk sOk).res = .error e ∨
        (m.overwrite_with offset len w sOk).res = .error e ∨
        (m.drop_from_tail len slOk sOk).res = .error e) →
      e = .unexpectedEof ∨ e = .hostFailure) := by
  refine ⟨by decide, by decide, by decide, by decide, by decide, ?_, ?_, ?_⟩
  · intro code h1 h2 h3 h4 h5
    simp [translateErrno, h1, h2, h3, h4, h5]
  · intro mm offset len e h
    by_cases hb : offset + len > mm.size <;>
      simp [Mmap.read_with, hb] at h
    exact h.symm
  · intro mm offset len w slOk sOk e _
    cases e
    · exact Or.inl rfl
    · exact Or.inr rfl

theorem claim8_witness :
    ((7 : Int) ≠ EACCES ∧ (7 : Int) ≠ EBADF ∧ (7 : Int) ≠ EINVAL ∧
      (7 : Int) ≠ ENODEV ∧ (7 : Int) ≠ ENOMEM) ∧
    translateErrno 7 = .ErrUnknown 7 :=
  ⟨⟨by decide, by decide, by decide, by decide, by decide⟩,
    claim8_errno_translation.2.2.2.2.2.1 7 (by decide) (by decide) (by decide)
      (by decide) (by decide)⟩

/-- C9 counterexample: when opening the file fails, `Mmap::new` does not
return an error value — the `.unwrap()` at src/lib.rs:63 panics instead. -/
theorem claim9_counterexample :
    Mmap.new ⟨false, true, [], false, 0⟩ = .panicked ∧
    (Mmap.new ⟨false, true, [], false, 0⟩).isErr = false := by
  decide

/-- C9 (amended): `set_len` and `sync_all` failures during operations are
surfaced to the caller as opaque I/O failures in the returned result, and a
mapping failure in the constructor is returned as the translated taxonomy
error; but a failure to open the file or to read its length during
construction panics (aborts) instead of returning an error value. -/
theorem claim9_amended_failure_surfacing (m : Mmap) (offset len : Nat)
    (w : List Nat → List Nat) (sOk : Bool) (h : HostOpen)
    (hin : offset + len ≤ m.size) :
    ((m.append_with len w false sOk).res = .error .hostFailure) ∧
    ((m.append_with len w true false).res = .error .hostFailure) ∧
    ((m.overwrite_with offset len w false).res = .error .hostFailure) ∧
    ((m.drop_from_tail len false sOk).res = .error .hostFailure) ∧
    ((m.drop_from_tail len true false).res = .error .hostFailure) ∧
    (h.openOk = true → h.metadataOk = true → h.mmapFailed = true →
      Mmap.new h = .err (translateErrno h.errno)) ∧
    (h.openOk = false → Mmap.new h = .panicked) ∧
    (h.openOk = true → h.metadataOk = false → Mmap.new h = .panicked) := by
  have hng : ¬ (offset + len > m.size) := by omega
  refine ⟨?_, ?_, ?_, ?_, ?_, ?_, ?_, ?_⟩
  · simp [Mmap.append_with]
  · simp [Mmap.append_with]
  · simp [Mmap.overwrite_with, hng]
  · simp [Mmap.drop_from_tail]
  · simp [Mmap.drop_from_tail]
  · intro ha hb hc
    simp [Mmap.new, ha, hb, hc]
  · intro ha
    simp [Mmap.new, ha]
  · intro ha hb
    simp [Mmap.new, ha, hb]

theorem claim9_witness :
    0 + 1 ≤ (Mmap.mk [3] 1).size ∧
    ((Mmap.mk [3] 1).overwrite_with 0 1 id false).res = .error .hostFailure :=
  ⟨by decide,
    (claim9_amended_failure_surfacing (Mmap.mk [3] 1) 0 1 id true
      ⟨true, true, [], false, 0⟩ (by decide)).2.2.1⟩

/-- C10: with the invariant, a zero-length request succeeds exactly when
`offset ≤ size`: `read(offset, 0)` returns the empty byte vector and
`overwrite(offset, [])` (with the flush succeeding) changes neither the
content nor the size, while both fail with the end-of-range condition when
`offset > size`; and every successful `read(offset, len)` returns exactly
`len` bytes. -/
theorem claim10_zero_length_and_read_length (m : Mmap) (offset len : Nat)
    (hinv : m.inv) :
    (offset ≤ m.size → (m.read offset 0).res = .ok []) ∧
    (offset > m.size → (m.read offset 0).res = .error .unexpectedEof) ∧
    (offset ≤ m.size → (m.overwrite offset [] true).res = .ok () ∧
      (m.overwrite offset [] true).state = m) ∧
    (offset > m.size → (m.overwrite offset [] true).res = .error .unexpectedEof ∧
      (m.overwrite offset [] true).state = m) ∧
    (offset + len ≤ m.size →
      (m.read offset len).res = .ok (sliceOf m.content offset len) ∧
      (sliceOf m.content offset len).length = len) := by
  have hlen : m.size = m.content.length := hinv
  have hfit : ∀ x : List Nat, fitLen 0 x = [] := fun _ => rfl
  refine ⟨?_, ?_, ?_, ?_, ?_⟩
  · intro h
    have hng : ¬ m.size < offset := by omega
    simp [Mmap.read, Mmap.read_with, hng, sliceOf]
  · intro h
    have hg : m.size < offset := by omega
    simp [Mmap.read, Mmap.read_with, hg]
  · intro h
    have hng : ¬ m.size < offset := by omega
    constructor
    · simp [Mmap.overwrite, Mmap.overwrite_with, hng]
    · simp [Mmap.overwrite, Mmap.overwrite_with, hng, hfit, writeAt_nil]
  · intro h
    have hg : m.size < offset := by omega
    simp [Mmap.overwrite, Mmap.overwrite_with, hg]
  · intro h
    have hng : ¬ m.size < offset + len := by omega
    refine ⟨?_, ?_⟩
    · simp [Mmap.read, Mmap.read_with, hng]
    · exact sliceOf_length (by omega)

theorem claim10_witness :
    (Mmap.mk [4, 5] 2).inv ∧
    (2 ≤ (Mmap.mk [4, 5] 2).size → ((Mmap.mk [4, 5] 2).read 2 0).res = .ok []) :=
  ⟨by decide,
    (claim10_zero_length_and_read_length (Mmap.mk [4, 5] 2) 2 0 (by decide)).1⟩
